import Mathlib

/-!
Verification of the `qdataframes` table-model adapter layer.

This file is a shallow embedding, in Lean 4, of the Python code in
`qdataframes/models.py`, `qdataframes/formatters.py` and `qdataframes/util.py`:

* pandas `DataFrame`s become the `Frame` structure (a list of named columns
  together with labelled rows of cells);
* pandas cells become the `Value` type (string, integer, boolean, timestamp
  or NaN);
* the three model classes (`BaseTableModel`, `FormattedTableModel`,
  `EditableTableModel`) become a single `Model` structure tagged with a
  `Variant`, mirroring the inheritance chain;
* methods that can raise become `Except` computations, with `PyErr`
  standing for the Python exceptions that can escape them;
* Qt signal emissions and the data/display mutations of a method are
  recorded as an explicit list of `Step`s, so that ordering claims about
  "layout about to change" / "layout changed" can be stated.

pandas' `sort_values` (`nargsort`) first splits off the NaN rows, which go
last in both sort orders (`na_position='last'`); the non-NaN block is
argsorted ascending, and for descending order it is reversed before the
argsort and the resulting permutation reversed again.  The embedding
mirrors this with a stable `insertionSort` on the NaN-free block, the same
reverse/sort/reverse sandwich for descending order, and the NaN rows
appended in their original order.
-/

deriving instance DecidableEq for Except

namespace QDF

/-- A pandas cell value: one of the value kinds actually stored in the
tables of this repository (strings, integers, booleans, `pd.Timestamp`
dates, NaN). -/
inductive Value where
  | str (s : String)
  | int (n : Int)
  | bool (b : Bool)
  | date (y m d : Nat)
  | na
deriving DecidableEq

/-- Lexicographic comparison of char lists by code point; the order used by
Python/pandas when sorting a column of strings. -/
def clle : List Char → List Char → Bool
  | [], _ => true
  | _ :: _, [] => false
  | a :: as, b :: bs =>
    if a.toNat < b.toNat then true
    else if b.toNat < a.toNat then false
    else clle as bs

/-- String comparison by code-point order, kernel-computable. -/
def strLe (s t : String) : Bool := clle s.data t.data

/-- Constructor rank, used to give `Value` a total order: pandas columns are
homogeneous so mixed comparisons never happen in practice, but the model's
order must be total for `sort_values` to be a function. -/
def Value.rank : Value → Nat
  | .na => 0
  | .bool _ => 1
  | .int _ => 2
  | .date _ _ _ => 3
  | .str _ => 4

/-- Total order on non-missing cell values: same-kind values compare by
payload (the order pandas applies inside a homogeneous column), different
kinds by rank.  `sort_values` splits NaN cells off before comparing, so the
`na` cases below exist only to keep the function total. -/
def vle (a b : Value) : Bool :=
  match a, b with
  | .na, .na => true
  | .bool x, .bool y => decide (x = false ∨ y = true)
  | .int m, .int n => decide (m ≤ n)
  | .date y1 m1 d1, .date y2 m2 d2 =>
    decide (y1 < y2 ∨ (y1 = y2 ∧ (m1 < m2 ∨ (m1 = m2 ∧ d1 ≤ d2))))
  | .str s, .str t => strLe s t
  | a, b => decide (a.rank ≤ b.rank)

/-- Two-digit zero padding, as used by `str(datetime.date)`. -/
def pad2 (n : Nat) : String := if n < 10 then "0" ++ toString n else toString n

/-- ISO calendar date string `YYYY-MM-DD`. -/
def isoDate (y m d : Nat) : String := toString y ++ "-" ++ pad2 m ++ "-" ++ pad2 d

/-- Python `str(x)` on a cell value, as produced by `Series.astype(str)`:
NaN renders as `"nan"`, booleans as `"True"`/`"False"`, timestamps with a
midnight time component. -/
def Value.pyStr : Value → String
  | .str s => s
  | .int n => toString n
  | .bool b => if b then "True" else "False"
  | .date y m d => isoDate y m d ++ " 00:00:00"
  | .na => "nan"

/-- Python truthiness of a cell value (the metadata flags of this repository
are booleans, for which this is just the boolean itself). -/
def Value.truthy : Value → Bool
  | .bool b => b
  | .int n => decide (n ≠ 0)
  | .str s => decide (s ≠ "")
  | .date _ _ _ => true
  | .na => false

/-- Position of the first occurrence of a name in a column list; pandas
label lookup resolves to the first matching position. -/
def posOf (c : String) : List String → Option Nat
  | [] => none
  | x :: xs => if x = c then some 0 else (posOf c xs).map (· + 1)

/-- Cell access inside a list of cells, `NaN` out of range (the only
out-of-range reads the embedding performs are the NaN-filling ones of
`reindex`). -/
def getCell (cs : List Value) (p : Nat) : Value := cs.getD p .na

/-- A labelled row of cells. -/
structure Row (ι : Type) where
  label : ι
  cells : List Value
deriving DecidableEq

/-- A pandas `DataFrame`: named columns and labelled rows, each row's cells
aligned with the column list. -/
structure Frame (ι : Type) where
  cols : List String
  rows : List (Row ι)
deriving DecidableEq

/-- Well-formedness of a frame: every row has one cell per column. -/
def Frame.WF {ι : Type} (f : Frame ι) : Prop :=
  ∀ r ∈ f.rows, r.cells.length = f.cols.length

/-- Value of the cell of row `r` in the column named `c` (NaN when the
column does not exist, as `reindex` fills). -/
def cellIn {ι : Type} (cols : List String) (r : Row ι) (c : String) : Value :=
  match posOf c cols with
  | some p => getCell r.cells p
  | none => .na

/-- `df[c] = g(df[c])`: replace column `c` by `g` applied elementwise (the
formatters of `formatters.py` all act elementwise on the column Series). -/
def setColMap {ι : Type} (f : Frame ι) (c : String) (g : Value → Value) : Frame ι :=
  match posOf c f.cols with
  | none => f
  | some p =>
    { f with
      rows := f.rows.map fun r =>
        { r with cells := r.cells.set p (g (getCell r.cells p)) } }

/-- `df.reindex(columns=cs)`: select columns by name in the given order,
filling NaN for names with no matching data column. -/
def reindexCols {ι : Type} (f : Frame ι) (cs : List String) : Frame ι :=
  { cols := cs,
    rows := f.rows.map fun r => { r with cells := cs.map fun c => cellIn f.cols r c } }

/-- Row comparison by the value in column `c` (pandas `sort_values(by=c)`). -/
def rowLe {ι : Type} (cols : List String) (c : String) (a b : Row ι) : Prop :=
  vle (cellIn cols a c) (cellIn cols b c) = true

instance {ι : Type} (cols : List String) (c : String) :
    DecidableRel (rowLe (ι := ι) cols c) :=
  fun a b => inferInstanceAs (Decidable (vle _ _ = true))

/-- The `isna` mask of `nargsort`: whether the row's cell in column `c` is
missing. -/
def cellIsNa {ι : Type} (cols : List String) (c : String) (r : Row ι) : Bool :=
  decide (cellIn cols r c = Value.na)

/-- `df.sort_values(by=c, ascending=asc)`, following pandas `nargsort` with
its default `na_position='last'`: the NaN rows are split off and appended
last, in their original order, for both sort orders; the non-NaN block is
sorted ascending (stable `insertionSort` standing in for the argsort), and
for descending order it is reversed before the sort and the result reversed
again.  NaN cells therefore never reach the comparator `vle`. -/
def sortValues {ι : Type} (f : Frame ι) (c : String) (asc : Bool) : Frame ι :=
  let nonNa := f.rows.filter fun r => !cellIsNa f.cols c r
  let nas := f.rows.filter (cellIsNa f.cols c)
  { f with
    rows :=
      (if asc then nonNa.insertionSort (rowLe f.cols c)
       else (nonNa.reverse.insertionSort (rowLe f.cols c)).reverse) ++ nas }

/-- "Ascending by column `c` with missing values placed last": the row
order produced by an ascending `sort_values` under `na_position='last'`. -/
def naLastLe {ι : Type} (cols : List String) (c : String) (a b : Row ι) : Prop :=
  cellIn cols b c = Value.na ∨
    (cellIn cols a c ≠ Value.na ∧ vle (cellIn cols a c) (cellIn cols b c) = true)

/-- `order = not order if order is not None else not Qt.AscendingOrder`:
the pandas `ascending` flag a sort call resolves to. -/
def ascOf : Option Bool → Bool
  | none => true
  | some o => !o

/-- `df.loc[lbl, c] = v`: write by row label and column name (pandas writes
every row carrying the label; labels are unique in this repository, and the
write path is unreachable for columns absent from the data, where pandas
would create a new column). -/
def locSet {ι : Type} [DecidableEq ι] (f : Frame ι) (lbl : ι) (c : String)
    (v : Value) : Frame ι :=
  match posOf c f.cols with
  | none => f
  | some p =>
    { f with
      rows := f.rows.map fun r =>
        if r.label = lbl then { r with cells := r.cells.set p v } else r }

/-- Python exceptions that can escape the embedded methods. -/
inductive PyErr where
  | attributeError (name : String)
  | indexError
deriving DecidableEq

/-- Python/pandas positional indexing: non-negative in-range positions and
negative from-the-end positions resolve, anything else is an IndexError. -/
def pyIndex (n : Nat) (i : Int) : Option Nat :=
  if 0 ≤ i ∧ i < (n : Int) then some i.toNat
  else if -(n : Int) ≤ i ∧ i < 0 then some (i + n).toNat
  else none

def pyIndexE (n : Nat) (i : Int) : Except PyErr Nat :=
  match pyIndex n i with
  | some p => .ok p
  | none => .error .indexError

/-- `self._displayed_data.iloc[row, col]`, the behavior registered for the
display (and, on the editable model, edit) role. -/
def frameIloc {ι : Type} (f : Frame ι) (r c : Int) : Except PyErr Value := do
  let ri ← pyIndexE f.rows.length r
  let ci ← pyIndexE f.cols.length c
  match f.rows[ri]? with
  | some row => pure (getCell row.cells ci)
  | none => .error .indexError

/-- The row labels of the metadata table (its index: the data column names). -/
def metaLabels (meta : Frame String) : List String := meta.rows.map Row.label

/-- Field of a metadata row, by field (column) name. -/
def rowFieldVal {ι : Type} (cols : List String) (r : Row ι) (field : String) : Value :=
  cellIn cols r field

/-- `meta.loc[lbl, field]`: field of the metadata record for column `lbl`
(first matching record; NaN when absent — the embedded call sites always
look up labels present in the metadata). -/
def metaFieldVal (meta : Frame String) (lbl field : String) : Value :=
  match meta.rows.find? (fun r => r.label = lbl) with
  | some r => cellIn meta.cols r field
  | none => .na

/-- Rows of the metadata marked visible (`self._table_meta.loc[...visible]`). -/
def visTruthy (meta : Frame String) (r : Row String) : Bool :=
  (rowFieldVal meta.cols r "visible").truthy

/-- Metadata row comparison by the `col_number` field. -/
def colNumberLe (meta : Frame String) (a b : Row String) : Prop :=
  vle (rowFieldVal meta.cols a "col_number") (rowFieldVal meta.cols b "col_number") = true

instance (meta : Frame String) : DecidableRel (colNumberLe meta) :=
  fun a b => inferInstanceAs (Decidable (vle _ _ = true))

/-- `FormattedTableModel.visible_columns`: names of the visible metadata
records, in ascending `col_number` order. -/
def visibleColumns (meta : Frame String) : List String :=
  ((meta.rows.filter (visTruthy meta)).insertionSort (colNumberLe meta)).map Row.label

/-- `self.display_formats[c]` rendered as the formatter tag interpolated
into `f"format_{...}"`. -/
def displayFormatTag (meta : Frame String) (c : String) : String :=
  (metaFieldVal meta c "display_format").pyStr

/-- `FormattedTableModel._format_columns`: copy the data, apply each
metadata-declared formatter to its column when that column exists, then
reindex to the visible columns in display order. -/
def formatColumns (fmts : String → Value → Value) (meta : Frame String)
    (dat : Frame Nat) : Frame Nat :=
  let df := meta.rows.foldl
    (fun df mr =>
      if mr.label ∈ df.cols then
        setColMap df mr.label (fmts (displayFormatTag meta mr.label))
      else df)
    dat
  reindexCols df (visibleColumns meta)

/-- The construction-time metadata validation errors of
`FormattedTableModel._validate_meta` (KeyError / KeyError / ValueError). -/
inductive MetaError where
  | missingMetaColumns (cs : List String)
  | missingDataColumns (cs : List String)
  | missingValues
deriving DecidableEq

/-- `FormattedTableModel._meta_table_columns`. -/
def reqFormatted : List String := ["col_number", "display_format", "visible"]

/-- `EditableTableModel._meta_table_columns`. -/
def reqEditable : List String := reqFormatted ++ ["data_type", "editable", "autocomplete"]

/-- `table_meta.isna().any().any()`. -/
def metaHasNa (meta : Frame String) : Bool :=
  meta.rows.any fun r => r.cells.any fun v => v = .na

/-- `(table_meta[col].astype(str) == "").any()` over all metadata columns. -/
def metaHasEmpty (meta : Frame String) : Bool :=
  meta.rows.any fun r => r.cells.any fun v => v.pyStr = ""

/-- `FormattedTableModel._validate_meta`, parameterized by the required
field set (`_meta_table_columns`) of the constructing class. -/
def validateMeta (req : List String) (meta : Frame String) (dat : Frame Nat) :
    Except MetaError Unit :=
  if !(req.all fun c => decide (c ∈ meta.cols)) then
    .error (.missingMetaColumns (req.filter fun c => decide (c ∉ meta.cols)))
  else if !(dat.cols.all fun c => decide (c ∈ metaLabels meta)) then
    .error (.missingDataColumns (dat.cols.filter fun c => decide (c ∉ metaLabels meta)))
  else if metaHasNa meta then .error .missingValues
  else if metaHasEmpty meta then .error .missingValues
  else .ok ()

/-- Which model class a `Model` value embeds. -/
inductive Variant where
  | base | formatted | editable
deriving DecidableEq

/-- State of a table model object: the mix-in `format_*`/`typer_*` methods
in scope on the concrete class are carried as the environments `fmts` and
`typers` (a `typer_*` failure is the message of its TypeConversionError). -/
structure Model where
  variant : Variant
  dat : Frame Nat
  displayed : Frame Nat
  tableMeta : Frame String
  modifiedRows : List Nat
  fmts : String → Value → Value
  typers : String → String → Except String Value

/-- Python `set.add` on the modified-row set. -/
def setInsert (x : Nat) (s : List Nat) : List Nat := if x ∈ s then s else x :: s

/-- What `update_displayed_data` computes for each class: the base model
copies the data, the formatted/editable models apply `_format_columns`. -/
def displayedOf (m : Model) : Frame Nat :=
  match m.variant with
  | .base => m.dat
  | _ => formatColumns m.fmts m.tableMeta m.dat

/-- `update_displayed_data`. -/
def updateDisplayedData (m : Model) : Model := { m with displayed := displayedOf m }

/-- A model state whose displayed view is up to date — every state reachable
through the constructors and methods satisfies this. -/
def Model.Coherent (m : Model) : Prop := m.displayed = displayedOf m

/-- `BaseTableModel.__init__`: copy the data and alias it as the displayed
data. -/
def mkBase (dat : Frame Nat) (fmts : String → Value → Value)
    (typers : String → String → Except String Value) : Model :=
  { variant := .base, dat := dat, displayed := dat, tableMeta := ⟨[], []⟩,
    modifiedRows := [], fmts := fmts, typers := typers }

/-- `FormattedTableModel.__init__`: validate the metadata, then initialize
and recompute the displayed view. -/
def mkFormatted (dat : Frame Nat) (meta : Frame String)
    (fmts : String → Value → Value)
    (typers : String → String → Except String Value) : Except MetaError Model :=
  match validateMeta reqFormatted meta dat with
  | .error e => .error e
  | .ok _ =>
    .ok (updateDisplayedData
      { variant := .formatted, dat := dat, displayed := dat, tableMeta := meta,
        modifiedRows := [], fmts := fmts, typers := typers })

/-- `EditableTableModel.__init__`. -/
def mkEditable (dat : Frame Nat) (meta : Frame String)
    (fmts : String → Value → Value)
    (typers : String → String → Except String Value) : Except MetaError Model :=
  match validateMeta reqEditable meta dat with
  | .error e => .error e
  | .ok _ =>
    .ok (updateDisplayedData
      { variant := .editable, dat := dat, displayed := dat, tableMeta := meta,
        modifiedRows := [], fmts := fmts, typers := typers })

/-- `Qt.DisplayRole`. -/
def displayRole : Nat := 0

/-- `Qt.EditRole`. -/
def editRole : Nat := 2

/-- The keys present in `_role_based_behavior` for each class. -/
def registeredRoles : Variant → List Nat
  | .editable => [displayRole, editRole]
  | _ => [displayRole]

/-- `self._role_based_behavior.get(role, ...)`: the dictionary populated by
`_register_roles` (display only; the editable subclass adds the edit role,
both bound to the same displayed-data `iloc` lambda). -/
def roleBehaviorLookup (m : Model) (role : Nat) :
    Option (Int → Int → Except PyErr Value) :=
  match m.variant with
  | .editable =>
    if role = displayRole ∨ role = editRole then
      some fun r c => frameIloc m.displayed r c
    else none
  | _ =>
    if role = displayRole then some (fun r c => frameIloc m.displayed r c)
    else none

/-- `BaseTableModel.data` / `_apply_behavior`: dispatch on the role, with
the default behavior returning Python `None`. -/
def dataMethod (m : Model) (row col : Int) (role : Nat) :
    Except PyErr (Option Value) :=
  match roleBehaviorLookup m role with
  | none => .ok none
  | some b => (b row col).map some

/-- One primitive action of a method body: a Qt signal emission, a call of
the error dialog, or a mutation of the model state. -/
inductive Step where
  | emitLayoutAboutToBeChanged
  | emitLayoutChanged
  | emitDataChanged (row col : Int)
  | showDialog (msg : String)
  | mutateSortData (colname : String) (ascending : Bool)
  | recomputeDisplayed
deriving DecidableEq

/-- State effect of one step (emissions and dialogs do not touch the state). -/
def runStep (m : Model) : Step → Model
  | .mutateSortData c asc => { m with dat := sortValues m.dat c asc }
  | .recomputeDisplayed => updateDisplayedData m
  | _ => m

def runSteps (m : Model) (steps : List Step) : Model := steps.foldl runStep m

/-- `Qt.AscendingOrder` (= 0, falsy). -/
def ascendingOrder : Bool := false

/-- `Qt.DescendingOrder` (= 1, truthy). -/
def descendingOrder : Bool := true

/-- `BaseTableModel.sort` under the `update_display` decorator of `util.py`:
emit `layoutAboutToBeChanged`, re-sort `_data` by the displayed column name
(`ascending` resolves to True when no order is supplied), recompute the
displayed data, emit `layoutChanged`. -/
def sortOp (m : Model) (column : Int) (order : Option Bool) :
    Except PyErr (Model × List Step) := do
  let ci ← pyIndexE m.displayed.cols.length column
  let colname := m.displayed.cols.getD ci ""
  let asc := match order with | none => true | some o => !o
  let steps := [Step.emitLayoutAboutToBeChanged, Step.mutateSortData colname asc,
                Step.recomputeDisplayed, Step.emitLayoutChanged]
  pure (runSteps m steps, steps)

/-- `EditableTableModel.editable_columns` (a Series indexed by the editable
column names; `in` tests membership of its index). -/
def editableColumns (m : Model) : List String :=
  (m.tableMeta.rows.filter fun r =>
    (rowFieldVal m.tableMeta.cols r "editable").truthy).map Row.label

/-- `self._table_meta.loc[c, "data_type"]` rendered as the tag interpolated
into `f"typer_{...}"`. -/
def dataTypeOf (m : Model) (c : String) : String :=
  (metaFieldVal m.tableMeta c "data_type").pyStr

/-- `EditableTableModel._validate_edit_role`.  `cond1` is `not
index.isValid()` (a QModelIndex is valid iff its row and column are ≥ 0);
`cond4` evaluates `self._data_columns`, an attribute never defined anywhere
in `models.py`, so whenever the `col < 0` test does not short-circuit the
lookup raises AttributeError. -/
def validateEditRole (m : Model) (row col : Int) (role : Nat) :
    Except PyErr (Option (Int × Int)) := do
  let cond1 := !(decide (0 ≤ row) && decide (0 ≤ col))
  let cond2 := decide (role ≠ editRole)
  let cond3 := decide (row < 0) || decide ((m.dat.rows.length : Int) ≤ row)
  let cond4 ← if col < 0 then Except.ok true
              else Except.error (PyErr.attributeError "_data_columns")
  if cond1 || cond2 || cond3 || cond4 then pure none else pure (some (row, col))

/-- `EditableTableModel.setData`: validate the role and position, resolve
the displayed row label and column name, reject non-editable columns,
convert the text (a TypeConversionError becomes one error dialog and a True
result), then write through `loc`, recompute the displayed view, emit
`dataChanged` for the edited cell and record the modified row label. -/
def setData (m : Model) (row col : Int) (value : String) (role : Nat) :
    Except PyErr (Bool × Model × List Step) := do
  let ind ← validateEditRole m row col role
  match ind with
  | none => pure (false, m, [])
  | some (r, c) =>
    let ri ← pyIndexE m.displayed.rows.length r
    let rowLbl := match m.displayed.rows[ri]? with
      | some rr => rr.label
      | none => 0
    let ci ← pyIndexE m.displayed.cols.length c
    let colName := m.displayed.cols.getD ci ""
    if colName ∉ editableColumns m then pure (false, m, [])
    else
      match m.typers (dataTypeOf m colName) value with
      | .error msg => pure (true, m, [Step.showDialog msg])
      | .ok v =>
        let m1 := { m with dat := locSet m.dat rowLbl colName v }
        let m2 := updateDisplayedData m1
        let m3 := { m2 with modifiedRows := setInsert rowLbl m2.modifiedRows }
        pure (true, m3, [Step.emitDataChanged row col])

/-- ASCII lower-casing of one character (`str.lower`). -/
def lowerChar (c : Char) : Char :=
  if 65 ≤ c.toNat ∧ c.toNat ≤ 90 then Char.ofNat (c.toNat + 32) else c

/-- `s.lower() == "nan"`. -/
def lowerEqNan (s : String) : Bool := s.data.map lowerChar = "nan".data

/-- `FormatterMixIn.format_str`, elementwise: coerce to text, blanking NaN
and any case variant of the literal "nan" (`handle_str_nan`). -/
def formatStrV (v : Value) : Value :=
  let s := v.pyStr
  if lowerEqNan s then .str "" else .str s

/-- `FormatterMixIn.format_date`, elementwise on the timestamp cells it is
applied to in this repository: render the date part as an ISO string. -/
def formatDateV (v : Value) : Value :=
  match v with
  | .date y m d => .str (isoDate y m d)
  | v => v

/-- `FormatModel.format_two_decimals` from the test suite, elementwise on
the integer cells it is applied to: `f"{val:0.2f}"`. -/
def formatTwoDecimalsV (v : Value) : Value :=
  match v with
  | .int n => .str (toString n ++ ".00")
  | v => v

/-- The `format_*` methods in scope on the test model classes. -/
def exFmts : String → Value → Value := fun tag v =>
  match tag with
  | "str" => formatStrV v
  | "date" => formatDateV v
  | "two_decimals" => formatTwoDecimalsV v
  | _ => v

/-- `TyperMixIn.typer_str`: blank a case-insensitive "nan", else pass the
text through. -/
def typerStrF (x : String) : Except String Value :=
  if lowerEqNan x then .ok (.str "") else .ok (.str x)

def isDigit (c : Char) : Bool := decide (48 ≤ c.toNat ∧ c.toNat ≤ 57)

def digitsVal : List Char → Nat → Option Nat
  | [], acc => some acc
  | c :: cs, acc =>
    if isDigit c then digitsVal cs (acc * 10 + (c.toNat - 48)) else none

def parseNatChars (cs : List Char) : Option Nat :=
  match cs with
  | [] => none
  | _ => digitsVal cs 0

def splitOnChar (sep : Char) : List Char → List (List Char)
  | [] => [[]]
  | c :: cs =>
    let rest := splitOnChar sep cs
    if c = sep then [] :: rest
    else
      match rest with
      | [] => [[c]]
      | g :: gs => (c :: g) :: gs

/-- The single-quote character. -/
def sq : String := String.mk [Char.ofNat 39]

/-- `TyperMixIn.typer_date`: parse the text as a timestamp (ISO dashed
dates, the format exercised here; `pd.to_datetime` accepts more formats,
none of which any judged theorem reaches), raising TypeConversionError with
the offending text on failure. -/
def typerDateF (x : String) : Except String Value :=
  match (splitOnChar (Char.ofNat 45) x.data).map parseNatChars with
  | [some y, some m, some d] => .ok (.date y m d)
  | _ => .error (sq ++ x ++ sq ++ " is not a valid date string")

/-- The `typer_*` methods in scope on the test model class (`TyperMixIn`
provides exactly `typer_str` and `typer_date`). -/
def exTypers : String → String → Except String Value := fun tag x =>
  match tag with
  | "str" => typerStrF x
  | "date" => typerDateF x
  | _ => .ok .na

/-- The `simple_df` fixture: columns Letter/Number/Date/Extra, four rows
labelled 0..3. -/
def exData : Frame Nat :=
  { cols := ["Letter", "Number", "Date", "Extra"],
    rows :=
      [⟨0, [.str "a", .int 1, .date 2021 1 1, .str "this"]⟩,
       ⟨1, [.str "d", .int 2, .date 2021 1 2, .str "is"]⟩,
       ⟨2, [.str "b", .int 3, .date 2021 2 1, .str "not"]⟩,
       ⟨3, [.str "c", .int 4, .date 2021 3 1, .str "visible"]⟩] }

/-- The `meta_df` fixture. -/
def exMeta : Frame String :=
  { cols := ["col_number", "display_format", "visible"],
    rows :=
      [⟨"Letter", [.int 1, .str "str", .bool true]⟩,
       ⟨"Number", [.int 2, .str "two_decimals", .bool true]⟩,
       ⟨"Date", [.int 0, .str "date", .bool true]⟩,
       ⟨"Extra", [.int (-9), .str "str", .bool false]⟩] }

/-- The `editable_meta` fixture. -/
def exMetaE : Frame String :=
  { cols := ["col_number", "display_format", "visible", "data_type",
             "editable", "autocomplete"],
    rows :=
      [⟨"Letter", [.int 1, .str "str", .bool true, .str "str", .bool true, .bool true]⟩,
       ⟨"Number", [.int 2, .str "two_decimals", .bool true, .str "int", .bool false, .bool false]⟩,
       ⟨"Date", [.int 0, .str "date", .bool true, .str "date", .bool true, .bool false]⟩,
       ⟨"Extra", [.int (-9), .str "str", .bool false, .str "str", .bool false, .bool false]⟩] }

/-- The formatted model built on the test scenario. -/
def exModelF : Model :=
  { variant := .formatted, dat := exData,
    displayed := formatColumns exFmts exMeta exData, tableMeta := exMeta,
    modifiedRows := [], fmts := exFmts, typers := exTypers }

/-- The editable model built on the test scenario. -/
def exModelE : Model :=
  { variant := .editable, dat := exData,
    displayed := formatColumns exFmts exMetaE exData, tableMeta := exMetaE,
    modifiedRows := [], fmts := exFmts, typers := exTypers }

/-- The `missing_meta_col` fixture: the metadata table restricted to the
`visible` and `display_format` fields, dropping `col_number`. -/
def exMetaNoColNum : Frame String :=
  { cols := ["visible", "display_format"],
    rows :=
      [⟨"Letter", [.bool true, .str "str"]⟩,
       ⟨"Number", [.bool true, .str "two_decimals"]⟩,
       ⟨"Date", [.bool true, .str "date"]⟩,
       ⟨"Extra", [.bool false, .str "str"]⟩] }

/-- A one-column base model whose two rows carry equal Number values. -/
def exDup : Model :=
  mkBase ⟨["Number"], [⟨0, [.int 1]⟩, ⟨1, [.int 1]⟩]⟩ exFmts exTypers

/-- The effect of one iteration of the `_format_columns` loop on one row's
cells: when the metadata record's column exists, replace that cell by the
formatted value. -/
def applyFmtCell (fmts : String → Value → Value) (meta : Frame String)
    (cols0 : List String) (cells : List Value) (mr : Row String) : List Value :=
  match posOf mr.label cols0 with
  | none => cells
  | some p => cells.set p (fmts (displayFormatTag meta mr.label) (getCell cells p))

/-! ### Theorems -/

theorem clle_total (as bs : List Char) : clle as bs = true ∨ clle bs as = true := by
  induction as generalizing bs with
  | nil => left; rfl
  | cons a as ih =>
    cases bs with
    | nil => right; rfl
    | cons b bs =>
      by_cases h1 : a.toNat < b.toNat
      · left; simp [clle, h1]
      · by_cases h2 : b.toNat < a.toNat
        · right; simp [clle, h2]
        · rcases ih bs with h | h
          · left; simp [clle, h1, h2, h]
          · right; simp [clle, h1, h2, h]

theorem clle_trans {as bs cs : List Char} (h1 : clle as bs = true)
    (h2 : clle bs cs = true) : clle as cs = true := by
  induction as generalizing bs cs with
  | nil => rfl
  | cons a as ih =>
    cases bs with
    | nil => simp [clle] at h1
    | cons b bs =>
      cases cs with
      | nil => simp [clle] at h2
      | cons c cs =>
        rw [clle] at h1 h2 ⊢
        by_cases hab : a.toNat < b.toNat
        · rw [if_pos hab] at h1
          by_cases hbc : b.toNat < c.toNat
          · rw [if_pos (by omega)]
          · by_cases hcb : c.toNat < b.toNat
            · rw [if_neg hbc, if_pos hcb] at h2
              exact absurd h2 (by simp)
            · rw [if_pos (by omega)]
        · by_cases hba : b.toNat < a.toNat
          · rw [if_neg hab, if_pos hba] at h1
            exact absurd h1 (by simp)
          · rw [if_neg hab, if_neg hba] at h1
            by_cases hbc : b.toNat < c.toNat
            · rw [if_pos (by omega)]
            · by_cases hcb : c.toNat < b.toNat
              · rw [if_neg hbc, if_pos hcb] at h2
                exact absurd h2 (by simp)
              · rw [if_neg hbc, if_neg hcb] at h2
                rw [if_neg (by omega), if_neg (by omega)]
                exact ih h1 h2

theorem clle_antisymm {as bs : List Char} (h1 : clle as bs = true)
    (h2 : clle bs as = true) : as = bs := by
  induction as generalizing bs with
  | nil =>
    cases bs with
    | nil => rfl
    | cons b bs => simp [clle] at h2
  | cons a as ih =>
    cases bs with
    | nil => simp [clle] at h1
    | cons b bs =>
      rw [clle] at h1 h2
      by_cases hab : a.toNat < b.toNat
      · rw [if_neg (by omega), if_pos hab] at h2
        exact absurd h2 (by simp)
      · by_cases hba : b.toNat < a.toNat
        · rw [if_neg hab, if_pos hba] at h1
          exact absurd h1 (by simp)
        · rw [if_neg hab, if_neg hba] at h1
          rw [if_neg hba, if_neg hab] at h2
          have hc : a = b :=
            Char.ext (UInt32.toNat.inj (show a.toNat = b.toNat by omega))
          rw [hc, ih h1 h2]

theorem strLe_antisymm {s t : String} (h1 : strLe s t = true)
    (h2 : strLe t s = true) : s = t := by
  cases s; cases t
  exact congrArg String.mk (clle_antisymm h1 h2)

theorem vle_total (a b : Value) : vle a b = true ∨ vle b a = true := by
  cases a <;> cases b <;> simp_all [vle, Value.rank, strLe] <;>
    first
      | omega
      | (rename_i x y; cases x <;> cases y <;> decide)
      | (exact clle_total _ _)

theorem vle_trans {a b c : Value} (h1 : vle a b = true) (h2 : vle b c = true) :
    vle a c = true := by
  cases a <;> cases b <;> cases c <;> simp_all [vle, Value.rank, strLe] <;>
    first
      | omega
      | (rename_i x y z; revert h1 h2; cases x <;> cases y <;> cases z <;> decide)
      | (exact clle_trans h1 h2)

theorem vle_antisymm {a b : Value} (h1 : vle a b = true) (h2 : vle b a = true) :
    a = b := by
  cases a <;> cases b <;> simp_all [vle, Value.rank, strLe] <;>
    first
      | omega
      | (rename_i x y; revert h1 h2; cases x <;> cases y <;> decide)
      | (exact congrArg String.mk (clle_antisymm h1 h2))

theorem posOf_none_iff {c : String} {l : List String} :
    posOf c l = none ↔ c ∉ l := by
  induction l with
  | nil => simp [posOf]
  | cons x xs ih =>
    by_cases hx : x = c
    · simp [posOf, hx]
    · simp [posOf, hx, ih, Ne.symm hx]

theorem posOf_some_lt {c : String} {l : List String} {p : Nat}
    (h : posOf c l = some p) : p < l.length := by
  induction l generalizing p with
  | nil => simp [posOf] at h
  | cons x xs ih =>
    by_cases hx : x = c
    · simp [posOf, hx] at h
      simp [← h]
    · simp [posOf, hx] at h
      obtain ⟨q, hq, rfl⟩ := h
      have := ih hq
      simp
      omega

theorem posOf_some_getD {c : String} {l : List String} {p : Nat}
    (h : posOf c l = some p) : l.getD p "" = c := by
  induction l generalizing p with
  | nil => simp [posOf] at h
  | cons x xs ih =>
    by_cases hx : x = c
    · simp [posOf, hx] at h
      simp [← h, hx]
    · simp [posOf, hx] at h
      obtain ⟨q, hq, rfl⟩ := h
      simpa using ih hq

theorem posOf_isSome_of_mem {c : String} {l : List String} (h : c ∈ l) :
    ∃ p, posOf c l = some p := by
  cases hp : posOf c l with
  | none => exact absurd (posOf_none_iff.mp hp) (by simp [h])
  | some p => exact ⟨p, rfl⟩

theorem getCell_set_self {cs : List Value} {p : Nat} (h : p < cs.length)
    (v : Value) : getCell (cs.set p v) p = v := by
  induction cs generalizing p with
  | nil => simp at h
  | cons x xs ih =>
    cases p with
    | zero => rfl
    | succ q => exact ih (by simpa using h)

theorem getCell_set_ne {cs : List Value} {p q : Nat} (h : p ≠ q) (v : Value) :
    getCell (cs.set q v) p = getCell cs p := by
  induction cs generalizing p q with
  | nil => rfl
  | cons x xs ih =>
    cases q with
    | zero =>
      cases p with
      | zero => omega
      | succ p2 => rfl
    | succ q2 =>
      cases p with
      | zero => rfl
      | succ p2 =>
        show getCell (xs.set q2 v) p2 = getCell xs p2
        exact ih (by omega)

theorem getD_map_of_lt {α β : Type} {l : List α} {p : Nat} (f : α → β)
    (dflt : α) (dflt2 : β) (h : p < l.length) :
    (l.map f).getD p dflt2 = f (l.getD p dflt) := by
  induction l generalizing p with
  | nil => simp at h
  | cons x xs ih =>
    cases p with
    | zero => rfl
    | succ q => exact ih (by simpa using h)

theorem sortOp_eq (m : Model) (column : Int) (order : Option Bool)
    (ci : Nat) (hci : pyIndex m.displayed.cols.length column = some ci) :
    sortOp m column order =
      .ok (updateDisplayedData
            { m with
              dat := sortValues m.dat (m.displayed.cols.getD ci "")
                (match order with | none => true | some o => !o) },
           [Step.emitLayoutAboutToBeChanged,
            Step.mutateSortData (m.displayed.cols.getD ci "")
              (match order with | none => true | some o => !o),
            Step.recomputeDisplayed, Step.emitLayoutChanged]) := by
  simp [sortOp, pyIndexE, hci, runSteps, runStep]

theorem sortValues_cols {ι : Type} (f : Frame ι) (c : String) (asc : Bool) :
    (sortValues f c asc).cols = f.cols := rfl

theorem updateDisplayedData_coherent (m : Model) :
    (updateDisplayedData m).Coherent := rfl

/-- What one successful sort call does to the state components: coherence
and the displayed/underlying column lists are preserved, and the data frame
becomes its `sort_values` image by the resolved column name and order. -/
theorem sortOp_components (m : Model) (column : Int) (order : Option Bool)
    {ci : Nat} (hci : pyIndex m.displayed.cols.length column = some ci)
    (hcoh : m.Coherent) {m1 : Model} {tr : List Step}
    (h : sortOp m column order = .ok (m1, tr)) :
    m1.Coherent ∧ m1.displayed.cols = m.displayed.cols ∧
      m1.dat.cols = m.dat.cols ∧
      m1.dat = sortValues m.dat (m.displayed.cols.getD ci "") (ascOf order) := by
  rw [sortOp_eq m column order ci hci] at h
  simp only [Except.ok.injEq, Prod.mk.injEq] at h
  obtain ⟨hm, -⟩ := h
  subst hm
  refine ⟨updateDisplayedData_coherent _, ?_, rfl, rfl⟩
  show (displayedOf _).cols = m.displayed.cols
  rw [hcoh]
  show (displayedOf _).cols = (displayedOf m).cols
  unfold displayedOf
  cases m.variant <;> rfl

theorem sorted_nodup_unique {ι : Type} (cols : List String) (cn : String)
    (l1 l2 : List (Row ι)) (hperm : l1.Perm l2)
    (hs1 : l1.Sorted (rowLe cols cn)) (hs2 : l2.Sorted (rowLe cols cn))
    (hnd : (l1.map fun a => cellIn cols a cn).Nodup) : l1 = l2 := by
  have hnd2 : (l2.map fun a => cellIn cols a cn).Nodup :=
    (hperm.map fun a => cellIn cols a cn).nodup hnd
  have hp1 : l1.Pairwise fun a b =>
      rowLe cols cn a b ∧ cellIn cols a cn ≠ cellIn cols b cn :=
    hs1.and (List.pairwise_map.mp hnd)
  have hp2 : l2.Pairwise fun a b =>
      rowLe cols cn a b ∧ cellIn cols a cn ≠ cellIn cols b cn :=
    hs2.and (List.pairwise_map.mp hnd2)
  haveI : IsAntisymm (Row ι) fun a b =>
      rowLe cols cn a b ∧ cellIn cols a cn ≠ cellIn cols b cn :=
    ⟨fun a b h1 h2 => absurd (vle_antisymm h1.1 h2.1) h1.2⟩
  exact List.eq_of_perm_of_sorted hperm hp1 hp2

/-- C2: a well-formed edit-role `setData` call on the editable Date column
(row 0, displayed column 0, text "2021-05-09") should update the table at
the row label, refresh the display, emit `dataChanged` and record the row
label; instead the embedded code raises AttributeError, because
`_validate_edit_role` reads the never-defined attribute `_data_columns`
before any of that can happen. -/
theorem c2_setData_raises_attributeError :
    setData exModelE 0 0 "2021-05-09" editRole =
      .error (.attributeError "_data_columns") := rfl

/-- C3: an edit-role `setData` call on the editable Date column whose text
fails date conversion should pop exactly one error dialog and return True
with the table unchanged; instead the embedded code raises AttributeError
in `_validate_edit_role` before the converter is ever reached. -/
theorem c3_conversion_failure_raises_attributeError :
    setData exModelE 0 0 "not-a-date" editRole =
      .error (.attributeError "_data_columns") := rfl

/-- C4: a `setData` call whose row position (10) is beyond the table's
extent should be rejected silently with a False result; instead the
embedded code raises AttributeError, because `_validate_edit_role` computes
`cond4` by reading the never-defined attribute `_data_columns` even though
`cond3` already failed the bounds check. -/
theorem c4_out_of_bounds_raises_attributeError :
    setData exModelE 10 1 "z" editRole =
      .error (.attributeError "_data_columns") := rfl

/-- C7: an edit-role `setData` call on the non-editable Number column
(displayed column 2) should return False and change nothing; instead the
embedded code raises AttributeError in `_validate_edit_role` before the
editability check is reached. -/
theorem c7_noneditable_raises_attributeError :
    setData exModelE 0 2 "100" editRole =
      .error (.attributeError "_data_columns") := rfl

/-- C8: recomputing the displayed view never mutates the underlying table —
`update_displayed_data` leaves `_data` (hence every raw cell) unchanged —
and on the test scenario the formatted display shows "1.00" for the first
row's Number cell while the raw cell stays the integer 1. -/
theorem c8_update_display_preserves_data :
    (∀ m : Model, (updateDisplayedData m).dat = m.dat) ∧
    (∀ (m : Model) (r c : Int),
      frameIloc (updateDisplayedData m).dat r c = frameIloc m.dat r c) ∧
    frameIloc exModelF.displayed 0 2 = .ok (.str "1.00") ∧
    frameIloc exModelF.dat 0 1 = .ok (.int 1) :=
  ⟨fun _ => rfl, fun _ _ _ => rfl, rfl, rfl⟩

/-- C10: the role dispatch of `data` is total — for any role with no
registered behavior (anything but the display role on the base and
formatted models, anything but the display and edit roles on the editable
model), the accessor returns Python `None` and cannot raise. -/
theorem c10_unregistered_role_returns_none (m : Model) (row col : Int)
    (role : Nat) (h : role ∉ registeredRoles m.variant) :
    dataMethod m row col role = .ok none := by
  unfold dataMethod roleBehaviorLookup
  cases hv : m.variant <;> simp_all [registeredRoles, displayRole, editRole]

/-- Witness for C10 at a concrete unregistered role (7 is
`Qt.StatusTipRole`, registered by no class). -/
theorem c10_unregistered_role_returns_none_witness :
    dataMethod exModelE 0 0 7 = .ok none :=
  c10_unregistered_role_returns_none exModelE 0 0 7 (by decide)

/-- C6: metadata validation at construction succeeds exactly when every
required field is a metadata column, every data column has a metadata
record (extra records are tolerated), and no metadata cell is NaN or blank;
when a required field is missing the error names exactly the missing
fields, when a data column is uncovered the error names exactly the
uncovered columns, otherwise a NaN/blank cell is a missing-values error;
and a validation error makes the formatted/editable constructor fail with
that error before any displayed view is computed. -/
theorem c6_meta_validation (req : List String) (meta : Frame String)
    (dat : Frame Nat) :
    (validateMeta req meta dat = .ok () ↔
      ((∀ c ∈ req, c ∈ meta.cols) ∧ (∀ c ∈ dat.cols, c ∈ metaLabels meta) ∧
        metaHasNa meta = false ∧ metaHasEmpty meta = false)) ∧
    (¬ (∀ c ∈ req, c ∈ meta.cols) →
      ∃ cs, validateMeta req meta dat = .error (.missingMetaColumns cs) ∧
        cs ≠ [] ∧ ∀ c, c ∈ cs ↔ (c ∈ req ∧ c ∉ meta.cols)) ∧
    ((∀ c ∈ req, c ∈ meta.cols) → ¬ (∀ c ∈ dat.cols, c ∈ metaLabels meta) →
      ∃ cs, validateMeta req meta dat = .error (.missingDataColumns cs) ∧
        cs ≠ [] ∧ ∀ c, c ∈ cs ↔ (c ∈ dat.cols ∧ c ∉ metaLabels meta)) ∧
    ((∀ c ∈ req, c ∈ meta.cols) → (∀ c ∈ dat.cols, c ∈ metaLabels meta) →
      (metaHasNa meta = true ∨ metaHasEmpty meta = true) →
      validateMeta req meta dat = .error .missingValues) ∧
    (∀ e fmts typers, validateMeta reqFormatted meta dat = .error e →
      mkFormatted dat meta fmts typers = .error e) ∧
    (∀ e fmts typers, validateMeta reqEditable meta dat = .error e →
      mkEditable dat meta fmts typers = .error e) := by
  have hb1 : (req.all fun c => decide (c ∈ meta.cols)) = true ↔
      (∀ c ∈ req, c ∈ meta.cols) := by simp [List.all_eq_true]
  have hb2 : (dat.cols.all fun c => decide (c ∈ metaLabels meta)) = true ↔
      (∀ c ∈ dat.cols, c ∈ metaLabels meta) := by simp [List.all_eq_true]
  refine ⟨?_, ?_, ?_, ?_, ?_, ?_⟩
  · unfold validateMeta
    split_ifs with h1 h2 h3 h4 <;> simp_all
  · intro h1
    have hb : (req.all fun c => decide (c ∈ meta.cols)) = false := by
      rcases Bool.eq_false_or_eq_true (req.all fun c => decide (c ∈ meta.cols)) with h | h
      · exact absurd (hb1.mp h) h1
      · exact h
    refine ⟨req.filter fun c => decide (c ∉ meta.cols), ?_, ?_, ?_⟩
    · unfold validateMeta
      rw [hb]
      rfl
    · push_neg at h1
      obtain ⟨c, hc, hnc⟩ := h1
      have : c ∈ req.filter fun c => decide (c ∉ meta.cols) := by
        simp [List.mem_filter, hc, hnc]
      exact List.ne_nil_of_mem this
    · intro c
      simp [List.mem_filter]
  · intro h1 h2
    have hb : (dat.cols.all fun c => decide (c ∈ metaLabels meta)) = false := by
      rcases Bool.eq_false_or_eq_true
          (dat.cols.all fun c => decide (c ∈ metaLabels meta)) with h | h
      · exact absurd (hb2.mp h) h2
      · exact h
    refine ⟨dat.cols.filter fun c => decide (c ∉ metaLabels meta), ?_, ?_, ?_⟩
    · unfold validateMeta
      rw [hb1.mpr h1, hb]
      rfl
    · push_neg at h2
      obtain ⟨c, hc, hnc⟩ := h2
      have : c ∈ dat.cols.filter fun c => decide (c ∉ metaLabels meta) := by
        simp [List.mem_filter, hc, hnc]
      exact List.ne_nil_of_mem this
    · intro c
      simp [List.mem_filter]
  · intro h1 h2 h3
    unfold validateMeta
    rw [hb1.mpr h1, hb2.mpr h2]
    rcases h3 with h3 | h3
    · simp [h3]
    · rcases Bool.eq_false_or_eq_true (metaHasNa meta) with hna | hna <;>
        simp [hna, h3]
  · intro e fmts typers h
    simp [mkFormatted, h]
  · intro e fmts typers h
    simp [mkEditable, h]

/-- Witness for C6: metadata lacking the `col_number` field fails
validation with an error naming `col_number` among the missing fields. -/
theorem c6_meta_validation_witness :
    ∃ cs, validateMeta reqFormatted exMetaNoColNum exData =
        .error (.missingMetaColumns cs) ∧ cs ≠ [] ∧ "col_number" ∈ cs := by
  obtain ⟨cs, hcs, hne, hiff⟩ :=
    (c6_meta_validation reqFormatted exMetaNoColNum exData).2.1 (by decide)
  exact ⟨cs, hcs, hne, (hiff "col_number").mpr (by decide)⟩

/-- C9: every sort call emits "layout about to change" first, then re-sorts
the underlying table by the displayed column's name, then recomputes the
displayed view, then emits "layout changed" — the two layout notifications
bracket the structural mutation, one before and one after. -/
theorem c9_sort_layout_bracketing (m : Model) (column : Int) (order : Option Bool)
    (ci : Nat) (hci : pyIndex m.displayed.cols.length column = some ci) :
    sortOp m column order =
      .ok (updateDisplayedData
            { m with
              dat := sortValues m.dat (m.displayed.cols.getD ci "")
                (match order with | none => true | some o => !o) },
           [Step.emitLayoutAboutToBeChanged,
            Step.mutateSortData (m.displayed.cols.getD ci "")
              (match order with | none => true | some o => !o),
            Step.recomputeDisplayed, Step.emitLayoutChanged]) :=
  sortOp_eq m column order ci hci

/-- Witness for C9 at the test scenario's formatted model, sorting the
displayed column 2 ("Number") with no order argument. -/
theorem c9_sort_layout_bracketing_witness :
    sortOp exModelF 2 none =
      .ok (updateDisplayedData { exModelF with dat := sortValues exModelF.dat "Number" true },
           [Step.emitLayoutAboutToBeChanged, Step.mutateSortData "Number" true,
            Step.recomputeDisplayed, Step.emitLayoutChanged]) :=
  c9_sort_layout_bracketing exModelF 2 none 2 (by decide)

theorem sortValues_rows_asc {ι : Type} (f : Frame ι) (c : String) :
    (sortValues f c true).rows =
      (f.rows.filter fun rr => !cellIsNa f.cols c rr).insertionSort (rowLe f.cols c)
        ++ f.rows.filter (cellIsNa f.cols c) := rfl

theorem sortValues_rows_desc {ι : Type} (f : Frame ι) (c : String) :
    (sortValues f c false).rows =
      ((f.rows.filter fun rr => !cellIsNa f.cols c rr).reverse.insertionSort
          (rowLe f.cols c)).reverse
        ++ f.rows.filter (cellIsNa f.cols c) := rfl

/-- The NaN mask partitions the rows: non-NaN block then NaN block is a
permutation of the original rows. -/
theorem filter_na_partition_perm {ι : Type} (cols : List String) (c : String)
    (l : List (Row ι)) :
    ((l.filter fun rr => !cellIsNa cols c rr) ++ l.filter (cellIsNa cols c)).Perm l := by
  have hcongr : (l.filter fun rr => !!cellIsNa cols c rr) = l.filter (cellIsNa cols c) :=
    List.filter_congr fun x _ => by rw [Bool.not_not]
  rw [← hcongr]
  exact List.filter_append_perm _ l

/-- A sort call permutes the rows of the underlying table. -/
theorem sortValues_rows_perm {ι : Type} (f : Frame ι) (c : String) (asc : Bool) :
    (sortValues f c asc).rows.Perm f.rows := by
  cases asc
  · rw [sortValues_rows_desc]
    refine List.Perm.trans (List.Perm.append ?_ (List.Perm.refl _))
      (filter_na_partition_perm f.cols c f.rows)
    exact (List.reverse_perm _).trans
      ((List.perm_insertionSort (rowLe f.cols c) _).trans (List.reverse_perm _))
  · rw [sortValues_rows_asc]
    exact List.Perm.trans
      (List.Perm.append (List.perm_insertionSort (rowLe f.cols c) _) (List.Perm.refl _))
      (filter_na_partition_perm f.cols c f.rows)

theorem pairwise_of_mem_right {α : Type} {R : α → α → Prop} {P : α → Prop}
    (himp : ∀ a b, P b → R a b) {l : List α} (h : ∀ b ∈ l, P b) : l.Pairwise R := by
  induction l with
  | nil => exact List.Pairwise.nil
  | cons x xs ih =>
    refine List.Pairwise.cons ?_ (ih fun b hb => h b (List.mem_cons_of_mem x hb))
    intro b hb
    exact himp x b (h b (List.mem_cons_of_mem x hb))

/-- An ascending `sort_values` output is ordered ascending by the column
with missing values placed last. -/
theorem sortValues_asc_sorted {ι : Type} (f : Frame ι) (c : String) :
    (sortValues f c true).rows.Pairwise (naLastLe f.cols c) := by
  rw [sortValues_rows_asc]
  haveI : IsTotal (Row ι) (rowLe f.cols c) := ⟨fun x y => vle_total _ _⟩
  haveI : IsTrans (Row ι) (rowLe f.cols c) := ⟨fun _ _ _ ha hb => vle_trans ha hb⟩
  have hnamem : ∀ b ∈ f.rows.filter (cellIsNa f.cols c), cellIn f.cols b c = Value.na := by
    intro b hb
    have hb2 := (List.mem_filter.mp hb).2
    simpa [cellIsNa] using hb2
  refine List.pairwise_append.mpr ⟨?_, ?_, ?_⟩
  · refine List.Pairwise.imp_of_mem ?_
      (List.sorted_insertionSort (rowLe f.cols c) _)
    intro a b ha hb hab
    have ha2 : a ∈ f.rows.filter fun rr => !cellIsNa f.cols c rr :=
      (List.perm_insertionSort _ _).subset ha
    have hana : cellIn f.cols a c ≠ Value.na := by
      have ha3 := (List.mem_filter.mp ha2).2
      simpa [cellIsNa] using ha3
    exact Or.inr ⟨hana, hab⟩
  · exact pairwise_of_mem_right (fun a b hb => Or.inl hb) hnamem
  · intro a ha b hb
    exact Or.inl (hnamem b hb)

/-- C5, amended: a sort call with no order argument is exactly an
ascending-order call, and it leaves the rows of the underlying table a
permutation of the originals ordered ascending by the displayed column with
missing values placed last (pandas `na_position='last'`); sorting twice
with opposite order flags — ascending then descending, or the reverse —
produces exactly reversed row orders provided the sort column's values are
pairwise distinct and none is missing.  With duplicated values the reversal
fails (see the counterexample), and with missing values both orders place
the NaN rows last, so the orders are not reversals of each other. -/
theorem c5_sort_order_amended (m : Model) (column : Int) (ci : Nat)
    (hcoh : m.Coherent) (hci : pyIndex m.displayed.cols.length column = some ci) :
    (sortOp m column none = sortOp m column (some ascendingOrder)) ∧
    (∀ m1 tr, sortOp m column none = .ok (m1, tr) →
      m1.dat.rows.Pairwise (naLastLe m.dat.cols (m.displayed.cols.getD ci "")) ∧
      m1.dat.rows.Perm m.dat.rows) ∧
    (((m.dat.rows.map fun a => cellIn m.dat.cols a (m.displayed.cols.getD ci "")).Nodup ∧
        (∀ a ∈ m.dat.rows,
          cellIn m.dat.cols a (m.displayed.cols.getD ci "") ≠ Value.na)) →
      (∀ m1 tr1 m2 tr2, sortOp m column (some ascendingOrder) = .ok (m1, tr1) →
        sortOp m1 column (some descendingOrder) = .ok (m2, tr2) →
        m2.dat.rows = m1.dat.rows.reverse) ∧
      (∀ m1 tr1 m2 tr2, sortOp m column (some descendingOrder) = .ok (m1, tr1) →
        sortOp m1 column (some ascendingOrder) = .ok (m2, tr2) →
        m2.dat.rows = m1.dat.rows.reverse)) := by
  set cn := m.displayed.cols.getD ci "" with hcn
  set r := rowLe m.dat.cols cn with hr
  set S := m.dat.rows.insertionSort r with hS
  haveI : IsTotal (Row Nat) r := ⟨fun x y => vle_total _ _⟩
  haveI : IsTrans (Row Nat) r := ⟨fun _ _ _ ha hb => vle_trans ha hb⟩
  have hsortedS : S.Sorted r := List.sorted_insertionSort r m.dat.rows
  have hpermS : S.Perm m.dat.rows := List.perm_insertionSort r m.dat.rows
  refine ⟨rfl, ?_, ?_⟩
  · intro m1 tr h
    obtain ⟨-, -, -, hdat⟩ := sortOp_components m column none hci hcoh h
    rw [hdat]
    exact ⟨sortValues_asc_sorted m.dat cn, sortValues_rows_perm m.dat cn true⟩
  · intro ⟨hnd, hna⟩
    have hfl : ∀ l : List (Row Nat), (∀ a ∈ l, cellIn m.dat.cols a cn ≠ Value.na) →
        (l.filter fun rr => !cellIsNa m.dat.cols cn rr) = l ∧
          l.filter (cellIsNa m.dat.cols cn) = [] := by
      intro l hl
      constructor
      · refine List.filter_eq_self.mpr ?_
        intro a ha
        simp [cellIsNa, hl a ha]
      · refine List.filter_eq_nil_iff.mpr ?_
        intro a ha
        simp [cellIsNa, hl a ha]
    have huniq : ∀ l : List (Row Nat), l.Perm m.dat.rows → l.insertionSort r = S := by
      intro l hl
      have hperm1 : (l.insertionSort r).Perm m.dat.rows :=
        (List.perm_insertionSort r l).trans hl
      refine sorted_nodup_unique m.dat.cols cn _ _ (hperm1.trans hpermS.symm)
        (List.sorted_insertionSort r l) hsortedS ?_
      exact ((hperm1.map fun a => cellIn m.dat.cols a cn).symm).nodup hnd
    constructor
    · intro m1 tr1 m2 tr2 h1 h2
      obtain ⟨hcoh1, hdisp1, hcols1, hdat1⟩ :=
        sortOp_components m column (some ascendingOrder) hci hcoh h1
      have hci1 : pyIndex m1.displayed.cols.length column = some ci := by
        rw [hdisp1]; exact hci
      obtain ⟨-, -, -, hdat2⟩ :=
        sortOp_components m1 column (some descendingOrder) hci1 hcoh1 h2
      have hrows1 : m1.dat.rows = S := by
        rw [hdat1]
        show (sortValues m.dat cn true).rows = S
        rw [sortValues_rows_asc, (hfl m.dat.rows hna).1, (hfl m.dat.rows hna).2,
          List.append_nil]
      have hna1 : ∀ a ∈ m1.dat.rows, cellIn m.dat.cols a cn ≠ Value.na := by
        intro a ha
        rw [hrows1] at ha
        exact hna a (hpermS.subset ha)
      rw [hdat2, show m1.displayed.cols = m.displayed.cols from hdisp1]
      show (sortValues m1.dat cn false).rows = m1.dat.rows.reverse
      rw [sortValues_rows_desc]
      simp only [hcols1]
      rw [(hfl m1.dat.rows hna1).1, (hfl m1.dat.rows hna1).2, List.append_nil, hrows1]
      rw [show S.reverse.insertionSort r = S from
        huniq S.reverse ((List.reverse_perm S).trans hpermS)]
    · intro m1 tr1 m2 tr2 h1 h2
      obtain ⟨hcoh1, hdisp1, hcols1, hdat1⟩ :=
        sortOp_components m column (some descendingOrder) hci hcoh h1
      have hci1 : pyIndex m1.displayed.cols.length column = some ci := by
        rw [hdisp1]; exact hci
      obtain ⟨-, -, -, hdat2⟩ :=
        sortOp_components m1 column (some ascendingOrder) hci1 hcoh1 h2
      have hrows1 : m1.dat.rows = S.reverse := by
        rw [hdat1]
        show (sortValues m.dat cn false).rows = S.reverse
        rw [sortValues_rows_desc, (hfl m.dat.rows hna).1, (hfl m.dat.rows hna).2,
          List.append_nil]
        rw [show m.dat.rows.reverse.insertionSort r = S from
          huniq m.dat.rows.reverse (List.reverse_perm m.dat.rows)]
      have hna1 : ∀ a ∈ m1.dat.rows, cellIn m.dat.cols a cn ≠ Value.na := by
        intro a ha
        rw [hrows1] at ha
        exact hna a (hpermS.subset (S.reverse_perm.subset ha))
      rw [hdat2, show m1.displayed.cols = m.displayed.cols from hdisp1]
      show (sortValues m1.dat cn true).rows = m1.dat.rows.reverse
      rw [sortValues_rows_asc]
      simp only [hcols1]
      rw [(hfl m1.dat.rows hna1).1, (hfl m1.dat.rows hna1).2, List.append_nil, hrows1]
      rw [show S.reverse.insertionSort r = S from
          huniq S.reverse ((List.reverse_perm S).trans hpermS),
        List.reverse_reverse]

/-- Counterexample to C5 as stated: on a column with duplicated values,
sorting descending and then ascending does not produce exactly reversed row
orders (pandas computes the descending order by a reverse/sort/reverse
sandwich on the non-NaN block, so the tied rows end up where the stable
ascending re-sort keeps them). -/
theorem c5_desc_asc_counterexample :
    (do
      let p1 ← sortOp exDup 0 (some descendingOrder)
      let p2 ← sortOp p1.1 0 (some ascendingOrder)
      pure (decide (p2.1.dat.rows = p1.1.dat.rows.reverse))) =
      Except.ok false := rfl

/-- Witness for C5 (amended) at the test scenario's formatted model on
displayed column 2 ("Number"): the no-order sort equals the
ascending-order sort. -/
theorem c5_sort_order_amended_witness :
    sortOp exModelF 2 none = sortOp exModelF 2 (some ascendingOrder) :=
  (c5_sort_order_amended exModelF 2 2 rfl (by decide)).1

theorem pyIndex_coe_of_lt {n r : Nat} (h : r < n) : pyIndex n (r : Int) = some r := by
  unfold pyIndex
  rw [if_pos ⟨Int.ofNat_nonneg r, by exact_mod_cast h⟩]
  simp

theorem pyIndexE_coe_of_lt {n r : Nat} (h : r < n) : pyIndexE n (r : Int) = .ok r := by
  simp [pyIndexE, pyIndex_coe_of_lt h]

theorem getD_mem_of_lt {α : Type} {l : List α} {p : Nat} (d : α) (h : p < l.length) :
    l.getD p d ∈ l := by
  induction l generalizing p with
  | nil => simp at h
  | cons x xs ih =>
    cases p with
    | zero => exact List.mem_cons_self x xs
    | succ q => exact List.mem_cons_of_mem x (ih (by simpa using h))

theorem find?_label_of_nodup {rows : List (Row String)}
    (hnd : (rows.map Row.label).Nodup) {row : Row String} (hmem : row ∈ rows) :
    rows.find? (fun rr => rr.label = row.label) = some row := by
  induction rows with
  | nil => simp at hmem
  | cons h t ih =>
    rw [List.map_cons, List.nodup_cons] at hnd
    rcases List.mem_cons.mp hmem with rfl | hmem2
    · rw [List.find?_cons_of_pos]
      simp
    · have hne : h.label ≠ row.label := fun he =>
        hnd.1 (he ▸ List.mem_map_of_mem Row.label hmem2)
      rw [List.find?_cons_of_neg]
      · exact ih hnd.2 hmem2
      · simp [hne]

theorem metaFieldVal_self {meta : Frame String} (hnm : (metaLabels meta).Nodup)
    {row : Row String} (hmem : row ∈ meta.rows) (field : String) :
    metaFieldVal meta row.label field = cellIn meta.cols row field := by
  unfold metaFieldVal
  rw [find?_label_of_nodup hnm hmem]

theorem visibleColumns_mem_metaLabels {meta : Frame String} {c : String}
    (h : c ∈ visibleColumns meta) : c ∈ metaLabels meta := by
  unfold visibleColumns at h
  obtain ⟨row, hrow, rfl⟩ := List.mem_map.mp h
  have h2 : row ∈ meta.rows.filter (visTruthy meta) :=
    (List.perm_insertionSort (colNumberLe meta) _).subset hrow
  exact List.mem_map_of_mem Row.label (List.mem_of_mem_filter h2)

theorem row_eta {ι : Type} (row : Row ι) :
    ({ row with cells := row.cells } : Row ι) = row := rfl

/-- One iteration of the `_format_columns` loop rewrites every row
pointwise. -/
theorem formatStep_eq (fmts : String → Value → Value) (meta : Frame String)
    (g : Frame Nat) (mr : Row String) :
    (if mr.label ∈ g.cols then
      setColMap g mr.label (fmts (displayFormatTag meta mr.label))
    else g)
      = { cols := g.cols,
          rows := g.rows.map fun row =>
            { row with cells := applyFmtCell fmts meta g.cols row.cells mr } } := by
  by_cases hmem : mr.label ∈ g.cols
  · obtain ⟨p, hp⟩ := posOf_isSome_of_mem hmem
    rw [if_pos hmem]
    unfold setColMap applyFmtCell
    simp only [hp]
  · rw [if_neg hmem]
    have hp : posOf mr.label g.cols = none := posOf_none_iff.mpr hmem
    unfold applyFmtCell
    simp only [hp, row_eta, List.map_id']

/-- The `_format_columns` loop, reorganized row by row. -/
theorem formatFold_eq (fmts : String → Value → Value) (meta : Frame String)
    (L : List (Row String)) (g : Frame Nat) :
    L.foldl (fun df mr =>
        if mr.label ∈ df.cols then
          setColMap df mr.label (fmts (displayFormatTag meta mr.label))
        else df) g
      = { cols := g.cols,
          rows := g.rows.map fun row =>
            { row with cells := L.foldl (applyFmtCell fmts meta g.cols) row.cells } } := by
  induction L generalizing g with
  | nil =>
    simp only [List.foldl_nil, row_eta, List.map_id']
  | cons mr L ih =>
    rw [List.foldl_cons, formatStep_eq fmts meta g mr, ih]
    simp only [List.map_map, List.foldl_cons]
    rfl

/-- Value at position `p` (the position of column `c`) after the
`_format_columns` loop has run over the metadata records: when some record
declares column `c`, the cell is the formatted original value; otherwise it
is untouched. -/
theorem applyFmtRow_getCell (fmts : String → Value → Value) (meta : Frame String)
    (cols0 : List String) {c : String} {p : Nat} (hp : posOf c cols0 = some p) :
    ∀ L : List (Row String), (L.map Row.label).Nodup →
    ∀ cells : List Value, cols0.length ≤ cells.length →
    getCell (L.foldl (applyFmtCell fmts meta cols0) cells) p =
      if c ∈ L.map Row.label then
        fmts (displayFormatTag meta c) (getCell cells p)
      else getCell cells p := by
  intro L
  induction L with
  | nil =>
    intro _ cells _
    simp
  | cons mr L ih =>
    intro hnd cells hlen
    rw [List.map_cons, List.nodup_cons] at hnd
    rw [List.foldl_cons]
    by_cases hc : c = mr.label
    · subst hc
      have hset : applyFmtCell fmts meta cols0 cells mr =
          cells.set p (fmts (displayFormatTag meta mr.label) (getCell cells p)) := by
        unfold applyFmtCell
        rw [hp]
      rw [hset, ih hnd.2 _ (by rw [List.length_set]; exact hlen), if_neg hnd.1,
        if_pos (by exact List.mem_cons_self _ _)]
      exact getCell_set_self (lt_of_lt_of_le (posOf_some_lt hp) hlen) _
    · cases hq : posOf mr.label cols0 with
      | none =>
        have hset : applyFmtCell fmts meta cols0 cells mr = cells := by
          unfold applyFmtCell
          rw [hq]
        rw [hset, ih hnd.2 cells hlen]
        by_cases hmem2 : c ∈ L.map Row.label
        · rw [if_pos hmem2, if_pos (by simp [hmem2])]
        · rw [if_neg hmem2, if_neg (by simp [hc, hmem2])]
      | some q =>
        have hpq : p ≠ q := by
          intro he
          apply hc
          have h1 := posOf_some_getD hp
          have h2 := posOf_some_getD hq
          rw [← he] at h2
          rw [← h1, ← h2]
        have hset : applyFmtCell fmts meta cols0 cells mr =
            cells.set q (fmts (displayFormatTag meta mr.label) (getCell cells q)) := by
          unfold applyFmtCell
          rw [hq]
        rw [hset, ih hnd.2 _ (by rw [List.length_set]; exact hlen),
          getCell_set_ne hpq]
        by_cases hmem2 : c ∈ L.map Row.label
        · rw [if_pos hmem2, if_pos (by simp [hmem2])]
        · rw [if_neg hmem2, if_neg (by simp [hc, hmem2])]

theorem frameIloc_eq {ι : Type} (f : Frame ι) {r c : Nat} {row : Row ι}
    (hr : r < f.rows.length) (hc : c < f.cols.length) (hrow : f.rows[r]? = some row) :
    frameIloc f (r : Int) (c : Int) = .ok (getCell row.cells c) := by
  unfold frameIloc
  rw [pyIndexE_coe_of_lt hr, pyIndexE_coe_of_lt hc]
  show (match f.rows[r]? with
    | some row => pure (getCell row.cells c)
    | none => Except.error PyErr.indexError) = _
  rw [hrow]
  rfl

/-- Positional display read of the formatted view: cell `(r, c)` is the
column-`c` formatter applied to the raw value of row `r` in the displayed
column's name. -/
theorem formatColumns_cell (fmts : String → Value → Value) (meta : Frame String)
    (dat : Frame Nat) (hnm : (metaLabels meta).Nodup) (hwf : dat.WF)
    {r c : Nat} (hr : r < dat.rows.length) (hc : c < (visibleColumns meta).length)
    {row0 : Row Nat} (hrow : dat.rows[r]? = some row0)
    (hin : (visibleColumns meta).getD c "" ∈ dat.cols) :
    frameIloc (formatColumns fmts meta dat) (r : Int) (c : Int) =
      .ok (fmts (displayFormatTag meta ((visibleColumns meta).getD c ""))
        (cellIn dat.cols row0 ((visibleColumns meta).getD c ""))) := by
  obtain ⟨p, hp⟩ := posOf_isSome_of_mem hin
  have hrowmem : row0 ∈ dat.rows := List.getElem?_mem hrow
  have hlen : dat.cols.length ≤ row0.cells.length := le_of_eq (hwf row0 hrowmem).symm
  have hfmt : formatColumns fmts meta dat =
      reindexCols
        { cols := dat.cols,
          rows := dat.rows.map fun row =>
            { row with
              cells := meta.rows.foldl (applyFmtCell fmts meta dat.cols) row.cells } }
        (visibleColumns meta) := by
    unfold formatColumns
    rw [formatFold_eq]
  set row1 : Row Nat :=
    { label := row0.label,
      cells := meta.rows.foldl (applyFmtCell fmts meta dat.cols) row0.cells } with hrow1
  set row2 : Row Nat :=
    { label := row1.label,
      cells := (visibleColumns meta).map fun cname => cellIn dat.cols row1 cname }
    with hrow2
  rw [hfmt]
  rw [frameIloc_eq _ (by simpa [reindexCols] using hr) (by simpa [reindexCols] using hc)
    (show _ = some row2 by
      unfold reindexCols
      simp only [List.getElem?_map, hrow, Option.map_some]
      rfl)]
  rw [hrow2]
  show Except.ok (getCell ((visibleColumns meta).map fun cname => cellIn dat.cols row1 cname) c) = _
  rw [show getCell ((visibleColumns meta).map fun cname => cellIn dat.cols row1 cname) c
      = cellIn dat.cols row1 ((visibleColumns meta).getD c "") from
    getD_map_of_lt _ "" Value.na hc]
  rw [hrow1]
  show Except.ok (cellIn dat.cols
    { label := row0.label,
      cells := meta.rows.foldl (applyFmtCell fmts meta dat.cols) row0.cells }
    ((visibleColumns meta).getD c "")) = _
  unfold cellIn
  simp only [hp]
  rw [show getCell (meta.rows.foldl (applyFmtCell fmts meta dat.cols) row0.cells) p
      = fmts (displayFormatTag meta ((visibleColumns meta).getD c ""))
          (getCell row0.cells p) from by
    rw [applyFmtRow_getCell fmts meta dat.cols hp meta.rows hnm row0.cells hlen,
      if_pos (show (visibleColumns meta).getD c "" ∈ meta.rows.map Row.label from
        visibleColumns_mem_metaLabels (getD_mem_of_lt "" hc))]]

/-- C1: constructing the formatted adapter on a valid (table, metadata)
pair yields a displayed view whose columns are exactly the
visibility-marked metadata records in ascending declared `col_number`
order, and whose display-role cell `(r, c)` is the formatter declared for
displayed column `c` applied to the raw value of row `r` in that column
(for displayed columns present in the data; an extra visible metadata
record reindexes to a NaN column). -/
theorem c1_formatted_display_cells (dat : Frame Nat) (meta : Frame String)
    (fmts : String → Value → Value) (typers : String → String → Except String Value)
    (m : Model) (hm : mkFormatted dat meta fmts typers = .ok m)
    (hnm : (metaLabels meta).Nodup) (hwf : dat.WF)
    (r c : Nat) (hr : r < dat.rows.length) (hc : c < (visibleColumns meta).length)
    (row0 : Row Nat) (hrow : dat.rows[r]? = some row0)
    (hin : (visibleColumns meta).getD c "" ∈ dat.cols) :
    m.displayed.cols = visibleColumns meta ∧
    (visibleColumns meta).Perm
      ((meta.rows.filter (visTruthy meta)).map Row.label) ∧
    (visibleColumns meta).Pairwise (fun a b =>
      vle (metaFieldVal meta a "col_number") (metaFieldVal meta b "col_number") = true) ∧
    dataMethod m r c displayRole =
      .ok (some (fmts (displayFormatTag meta ((visibleColumns meta).getD c ""))
        (cellIn dat.cols row0 ((visibleColumns meta).getD c "")))) := by
  have hmm : m = updateDisplayedData
      { variant := .formatted, dat := dat, displayed := dat, tableMeta := meta,
        modifiedRows := [], fmts := fmts, typers := typers } := by
    unfold mkFormatted at hm
    split at hm
    · exact absurd hm (by simp)
    · injection hm with h
      exact h.symm
  subst hmm
  refine ⟨rfl, ?_, ?_, ?_⟩
  · exact (List.perm_insertionSort (colNumberLe meta) _).map Row.label
  · haveI : IsTotal (Row String) (colNumberLe meta) := ⟨fun x y => vle_total _ _⟩
    haveI : IsTrans (Row String) (colNumberLe meta) :=
      ⟨fun _ _ _ ha hb => vle_trans ha hb⟩
    have hsorted :
        ((meta.rows.filter (visTruthy meta)).insertionSort
          (colNumberLe meta)).Pairwise (colNumberLe meta) :=
      List.sorted_insertionSort _ _
    refine List.pairwise_map.mpr (List.Pairwise.imp_of_mem ?_ hsorted)
    intro a b ha hb hle
    have hma : a ∈ meta.rows :=
      List.mem_of_mem_filter ((List.perm_insertionSort (colNumberLe meta) _).subset ha)
    have hmb : b ∈ meta.rows :=
      List.mem_of_mem_filter ((List.perm_insertionSort (colNumberLe meta) _).subset hb)
    rw [metaFieldVal_self hnm hma, metaFieldVal_self hnm hmb]
    exact hle
  · show (frameIloc (formatColumns fmts meta dat) (r : Int) (c : Int)).map some = _
    rw [formatColumns_cell fmts meta dat hnm hwf hr hc hrow hin]
    rfl

/-- Witness for C1 at the test scenario: the first row's displayed Number
cell (position (0, 2)) reads back as the two-decimal rendering "1.00" of
the raw integer 1. -/
theorem c1_formatted_display_cells_witness :
    dataMethod exModelF 0 2 displayRole = .ok (some (.str "1.00")) := by
  have h := (c1_formatted_display_cells exData exMeta exFmts exTypers exModelF rfl
    (by decide)
    (show ∀ rr ∈ exData.rows, rr.cells.length = exData.cols.length by decide)
    0 2 (by decide) (by decide)
    ⟨0, [.str "a", .int 1, .date 2021 1 1, .str "this"]⟩ (by decide) (by decide)).2.2.2
  exact h

end QDF
